import Mathlib

/-!
Verification of the backend adapter and stream-translation engine of the
llm-proxy gateway (package `proxy`).  Go strings are embedded as lists of
characters, Go maps with a zero-value default as total functions, the
newline-delimited JSON events as an inductive JSON value type (the external
`encoding/json` unmarshaller is abstracted: an input that fails to parse as a
JSON object is represented by `none`).  Subprocess runs are abstracted by
their observable outcomes; callbacks are embedded as boolean-failure
functions together with an explicit log of the arguments they were invoked
on.
-/

namespace Proxy

/-- A Go string, embedded as its sequence of characters. -/
abbrev GoStr := List Char

/-- The whitespace predicate used by Go's strings.TrimSpace
(unicode.IsSpace restricted to the code points that can occur here). -/
def goIsSpace (c : Char) : Bool :=
  c == ' ' || c == '\t' || c == '\n' || c == '\x0b' || c == '\x0c' || c == '\r' ||
    c == '\x85' || c == '\xa0'

/-- Go strings.TrimSpace: remove leading and trailing whitespace. -/
def trimSpace (s : GoStr) : GoStr :=
  ((s.dropWhile goIsSpace).reverse.dropWhile goIsSpace).reverse

/-- Go strings.HasPrefix. -/
def goHasPre : GoStr → GoStr → Bool
  | _, [] => true
  | [], _ :: _ => false
  | c :: s, d :: t => if c = d then goHasPre s t else false

/-- Go strings.TrimPrefix. -/
def goTrimPre (s pre : GoStr) : GoStr :=
  if goHasPre s pre then s.drop pre.length else s

/-- Go strings.Join. -/
def goJoin (sep : GoStr) : List GoStr → GoStr
  | [] => []
  | [x] => x
  | x :: y :: rest => x ++ sep ++ goJoin sep (y :: rest)

/-- Pointwise update of a Go map embedded as a total function
(missing keys read as the zero value). -/
def mapUpdate (m : Nat → GoStr) (idx : Nat) (v : GoStr) : Nat → GoStr :=
  fun i => if i = idx then v else m i

/-- JSON values as decoded by encoding/json into a Go `any`
(numbers carry the textual form that strconv.FormatFloat would produce). -/
inductive Json where
  | null
  | bool (b : Bool)
  | num (txt : GoStr)
  | str (s : GoStr)
  | arr (elems : List Json)
  | obj (fields : List (GoStr × Json))

/-- A decoded top-level JSON object (a Go map[string]any). -/
abbrev JObj := List (GoStr × Json)

/-- Lookup in a decoded JSON object; a missing key reads as Go nil. -/
def jGet (fields : JObj) (key : GoStr) : Option Json :=
  match fields.find? (fun p => p.1 == key) with
  | some p => some p.2
  | none => none

/-- The source's stringVal helper: strings and numbers render as text,
anything else (including a missing key) as the empty string. -/
def stringVal : Option Json → GoStr
  | some (.str s) => s
  | some (.num t) => t
  | _ => []

def keyType : GoStr := "type".data
def keyDelta : GoStr := "delta".data
def keyText : GoStr := "text".data
def keyContentBlock : GoStr := "content_block".data
def keyMessage : GoStr := "message".data
def keyContent : GoStr := "content".data
def typeCBDelta : GoStr := "content_block_delta".data
def typeCBStart : GoStr := "content_block_start".data
def typeMsgDelta : GoStr := "message_delta".data

/-- The explicit-delta branch of extractClaudeDelta (the type switch):
produces a delta only when the recognized shape carries non-empty text;
otherwise the source falls through to the cumulative fallback. -/
def explicitScan (raw : JObj) : Option GoStr :=
  let tryText (v : Option Json) : Option GoStr :=
    match v with
    | some (.obj fs) =>
        let t := stringVal (jGet fs keyText)
        if t = [] then none else some t
    | _ => none
  let typ := stringVal (jGet raw keyType)
  if typ = typeCBDelta then tryText (jGet raw keyDelta)
  else if typ = typeCBStart then tryText (jGet raw keyContentBlock)
  else if typ = typeMsgDelta then tryText (jGet raw keyDelta)
  else none

/-- The fallback loop of extractClaudeDelta over message.content:
walks the array with its indices, tracking the per-index last observed
full text; returns the delta, the ok flag, and the updated map. -/
def fallbackLoop : (Nat → GoStr) → List Json → Nat → GoStr × Bool × (Nat → GoStr)
  | m, [], _ => ([], false, m)
  | m, it :: rest, idx =>
    match it with
    | .obj item =>
      let full := stringVal (jGet item keyText)
      if full = [] then fallbackLoop m rest (idx + 1)
      else
        let prev := m idx
        if goHasPre full prev then
          let d := goTrimPre full prev
          if d = [] then fallbackLoop (mapUpdate m idx full) rest (idx + 1)
          else (d, true, mapUpdate m idx full)
        else if prev = [] then (full, true, mapUpdate m idx full)
        else fallbackLoop m rest (idx + 1)
    | _ => fallbackLoop m rest (idx + 1)

/-- The fallback section of extractClaudeDelta: requires a message object
holding a content array. -/
def fallbackScan (raw : JObj) (m : Nat → GoStr) : GoStr × Bool × (Nat → GoStr) :=
  match jGet raw keyMessage with
  | some (.obj msg) =>
    match jGet msg keyContent with
    | some (.arr content) => fallbackLoop m content 0
    | _ => ([], false, m)
  | _ => ([], false, m)

/-- extractClaudeDelta: one verbose-stream line (already unmarshalled;
`none` is a line that is not a JSON object) to (delta, ok) plus the
updated index-to-last-full-text map. -/
def extractClaudeDelta (line : Option JObj) (lastByIndex : Nat → GoStr) :
    GoStr × Bool × (Nat → GoStr) :=
  match line with
  | none => ([], false, lastByIndex)
  | some raw =>
    match explicitScan raw with
    | some t => (t, true, lastByIndex)
    | none => fallbackScan raw lastByIndex

/-! ## Claude adapter: streaming with plain-text fallback -/

structure ChatResponse where
  Model : GoStr
  Text : GoStr

structure ResponsesResponse where
  Model : GoStr
  Text : GoStr
  Reasoning : GoStr

/-- Failure outcomes of a Claude adapter call. -/
inductive claudeRunError where
  | cmdFailed
  | callbackFailed

/-- The shared body of ClaudeAdapter.ChatStream and RespondStream after the
auth check, abstracted over the outcomes of the two CLI runs:
`streamText`/`streamEmitted`/`streamErr` are what runClaudeStream returned,
`fallbackRun` is the result of runClaudeText when invoked (`none` = error),
`onDelta` is the callback (returning true on error).  The second component
logs the synthetic deltas this body itself delivers to the callback. -/
def claudeStreamCore (streamText : GoStr) (streamEmitted streamErr : Bool)
    (fallbackRun : Option GoStr) (onDelta : Option (GoStr → Bool)) :
    Except claudeRunError GoStr × List GoStr :=
  if streamErr then
    match fallbackRun with
    | none => (.error .cmdFailed, [])
    | some fb =>
      let text := trimSpace fb
      match onDelta with
      | some f =>
        if ¬streamEmitted ∧ text ≠ [] then
          if f text then (.error .callbackFailed, [text]) else (.ok text, [text])
        else (.ok text, [])
      | none => (.ok text, [])
  else if trimSpace streamText = [] then
    match fallbackRun with
    | none => (.error .cmdFailed, [])
    | some fb =>
      let text := trimSpace fb
      match onDelta with
      | some f =>
        if ¬streamEmitted ∧ text ≠ [] then
          if f text then (.error .callbackFailed, [text]) else (.ok text, [text])
        else (.ok text, [])
      | none => (.ok text, [])
  else (.ok streamText, [])

/-- ClaudeAdapter.ChatStream (auth check passed), returning the response and
the synthetic-delta log. -/
def ClaudeAdapterChatStream (model streamText : GoStr) (streamEmitted streamErr : Bool)
    (fallbackRun : Option GoStr) (onDelta : Option (GoStr → Bool)) :
    Except claudeRunError ChatResponse × List GoStr :=
  match claudeStreamCore streamText streamEmitted streamErr fallbackRun onDelta with
  | (.ok text, log) => (.ok ⟨model, text⟩, log)
  | (.error e, log) => (.error e, log)

/-- ClaudeAdapter.RespondStream (auth check passed), identical control flow
with an empty Reasoning field. -/
def ClaudeAdapterRespondStream (model streamText : GoStr) (streamEmitted streamErr : Bool)
    (fallbackRun : Option GoStr) (onDelta : Option (GoStr → Bool)) :
    Except claudeRunError ResponsesResponse × List GoStr :=
  match claudeStreamCore streamText streamEmitted streamErr fallbackRun onDelta with
  | (.ok text, log) => (.ok ⟨model, text, []⟩, log)
  | (.error e, log) => (.error e, log)

/-! ## Codex turn state machine -/

structure codexTurnResult where
  Output : GoStr
  Reasoning : GoStr

structure codexTurnState where
  currentAgent : GoStr
  agentMsgs : List GoStr
  reasoning : GoStr
  inAgentMsg : Bool

def codexTurnState.appendReasoning (s : codexTurnState) (delta : GoStr) : codexTurnState :=
  if trimSpace delta = [] then s else { s with reasoning := s.reasoning ++ delta }

def codexTurnState.appendAgentDelta (s : codexTurnState) (delta : GoStr) : codexTurnState :=
  { s with inAgentMsg := true, currentAgent := s.currentAgent ++ delta }

def codexTurnState.completeAgentMessage (s : codexTurnState) : codexTurnState :=
  let msg := trimSpace s.currentAgent
  { s with
      agentMsgs := if msg = [] then s.agentMsgs else s.agentMsgs ++ [msg],
      currentAgent := [], inAgentMsg := false }

def codexTurnState.finalize (s : codexTurnState) : codexTurnState :=
  if s.inAgentMsg ∨ s.currentAgent ≠ [] then s.completeAgentMessage else s

/-- A blank line, the separator strings.Join receives in result(). -/
def blankSep : GoStr := "\n\n".data

/-- codexTurnState.result: finalize, pick the output text (authoritative
last agent message if non-blank, else the most recent completed message),
and assemble the reasoning text (trimmed explicit buffer, then all completed
messages but the last, joined by blank lines). -/
def codexTurnState.result (s : codexTurnState) (lastAgentMessage : GoStr) : codexTurnResult :=
  let s' := s.finalize
  let output0 := trimSpace lastAgentMessage
  let output :=
    if output0 = [] ∧ s'.agentMsgs ≠ [] then trimSpace (s'.agentMsgs.getLastD [])
    else output0
  let reasoningParts := s'.agentMsgs.dropLast.filterMap
    (fun mg => if trimSpace mg = [] then none else some (trimSpace mg))
  let reasoning0 := trimSpace s'.reasoning
  let reasoning :=
    if reasoningParts ≠ [] then
      if reasoning0 ≠ [] then reasoning0 ++ blankSep ++ goJoin blankSep reasoningParts
      else goJoin blankSep reasoningParts
    else reasoning0
  { Output := output, Reasoning := trimSpace reasoning }

/-- The mutations the turn notification handlers perform on a codexTurnState. -/
inductive turnOp where
  | opAppendReasoning (delta : GoStr)
  | opAppendAgentDelta (delta : GoStr)
  | opCompleteAgentMessage
  | opFinalize

def applyTurnOp (s : codexTurnState) : turnOp → codexTurnState
  | .opAppendReasoning d => s.appendReasoning d
  | .opAppendAgentDelta d => s.appendAgentDelta d
  | .opCompleteAgentMessage => s.completeAgentMessage
  | .opFinalize => s.finalize

def applyTurnOps (s : codexTurnState) : List turnOp → codexTurnState
  | [] => s
  | op :: rest => applyTurnOps (applyTurnOp s op) rest

/-- The number of open agent messages a codexTurnState holds. -/
def openCount (s : codexTurnState) : Nat :=
  if s.inAgentMsg then 1 else 0

/-! ## Codex RPC client -/

/-- Classification of the raw id field of an incoming RPC message:
absent (a length-zero RawMessage), present but not a JSON string
(unmarshalling into a Go string fails), or a string id. -/
inductive rpcID where
  | absent
  | nonString
  | strID (s : GoStr)
deriving DecidableEq

structure codexRPCError where
  code : Int
  message : GoStr
deriving DecidableEq

/-- codexRPCMessage; params and result keep their raw JSON text
(Go json.RawMessage), empty meaning absent. -/
structure codexRPCMessage where
  id : rpcID
  method : GoStr
  params : GoStr
  result : GoStr
  err : Option codexRPCError
deriving DecidableEq

inductive callError where
  | rpcErr (code : Int) (message : GoStr)
  | streamEnded (detail : GoStr)
deriving DecidableEq

def unknownFailureText : GoStr := "unknown codex app-server failure".data

def methodTurnCompleted : GoStr := "turn/completed".data

/-- The receive loop of codexRPCClient.call, given the pending request id,
whether a decode target was supplied (out != nil), whether an observer
callback was supplied, the captured stderr text, and the queued messages in
arrival order (the queue closing after the last).  Returns the call outcome
(the raw result bytes on success, for decoding into out) and the list of
messages forwarded to the observer, in order. -/
def rpcCall (pid : GoStr) (outWanted hasObs : Bool) (stderrText : GoStr) :
    List codexRPCMessage → Except callError GoStr × List codexRPCMessage
  | [] =>
    (.error (.streamEnded
      (if trimSpace stderrText = [] then unknownFailureText else trimSpace stderrText)), [])
  | m :: rest =>
    match m.id with
    | .absent =>
      let r := rpcCall pid outWanted hasObs stderrText rest
      (r.1, (if hasObs then [m] else []) ++ r.2)
    | .nonString => rpcCall pid outWanted hasObs stderrText rest
    | .strID gid =>
      if gid = pid then
        match m.err with
        | some e => (.error (.rpcErr e.code e.message), [])
        | none =>
          if outWanted then (.ok m.result, []) else (.ok [], [])
      else
        let r := rpcCall pid outWanted hasObs stderrText rest
        (r.1, (if hasObs ∧ m.method ≠ [] then [m] else []) ++ r.2)

/-! ## Turn completion wait -/

/-- The receive loop of waitForTurnCompleted (no cancellation in flight):
consumes messages, forwarding each to notify, until a turn/completed
message or the closed channel.  Returns the forwarded messages in order
and the messages left unconsumed. -/
def waitLoop : List codexRPCMessage → List codexRPCMessage × List codexRPCMessage
  | [] => ([], [])
  | m :: rest =>
    if m.method = methodTurnCompleted then ([m], rest)
    else
      let r := waitLoop rest
      (m :: r.1, r.2)

/-- waitForTurnCompleted over a source of queued messages: returns
immediately when completion was already observed, otherwise runs the
receive loop.  (Both exits of the loop return success.) -/
def waitForTurnCompleted (msgs : List codexRPCMessage) (alreadyCompleted : Bool) :
    List codexRPCMessage × List codexRPCMessage :=
  if alreadyCompleted then ([], msgs)
  else waitLoop msgs

/-! ## Tail of runTurnStructured -/

inductive responseEventKind where
  | reasoning
  | output
deriving DecidableEq

structure ResponseEvent where
  Kind : responseEventKind
  Delta : GoStr

inductive turnError where
  | emptyOutput
  | callbackFailed
deriving DecidableEq

/-- The emit closure of runTurnStructured: skips when no consumer, when a
callback error is already latched, or when the delta is empty; otherwise
invokes the consumer and latches its failure. -/
def emitStep (onEvent : Option (ResponseEvent → Bool)) (cbErr : Bool)
    (k : responseEventKind) (d : GoStr) : Bool :=
  match onEvent with
  | none => cbErr
  | some f => if cbErr ∨ d = [] then cbErr else f ⟨k, d⟩

/-- The tail of runTurnStructured after waitForTurnCompleted returns:
propagate a latched callback error, compute the turn result, fail on empty
output, then emit the synthetic reasoning event (when reasoning was derived
but never streamed) and the final output event. -/
def runTurnStructuredTail (st : codexTurnState) (lastAgentMessage : GoStr)
    (callbackErr emittedReasoning : Bool) (onEvent : Option (ResponseEvent → Bool)) :
    Except turnError codexTurnResult :=
  if callbackErr then .error .callbackFailed
  else
    let result := st.result lastAgentMessage
    if result.Output = [] then .error .emptyOutput
    else
      let cb1 :=
        if ¬emittedReasoning ∧ trimSpace result.Reasoning ≠ [] then
          emitStep onEvent false .reasoning result.Reasoning
        else false
      let cb2 := emitStep onEvent cb1 .output result.Output
      if cb2 then .error .callbackFailed else .ok result

/-! ## Concrete inputs used by witnesses and counterexamples -/

/-- The everywhere-empty index map (a fresh Go map). -/
def mapEmpty : Nat → GoStr := fun _ => []

/-- The spec's prior observed text at index 0 (an apostrophe spelled via
its code point). -/
def prevObservedText : GoStr :=
  "I".data ++ [Char.ofNat 39] ++ "ll review the codebase".data

/-- The spec's new full text, which does not extend the prior text. -/
def newFullText : GoStr := "Based on my review, here are the issues".data

/-- Index map recording the prior observed text at index 0. -/
def mapC1 : Nat → GoStr := mapUpdate mapEmpty 0 prevObservedText

/-- A fallback-shape line whose content entry 0 carries the new full text. -/
def lineC1 : JObj :=
  [(keyType, Json.str ("legacy".data)),
   (keyMessage, Json.obj [(keyContent, Json.arr [Json.obj [(keyText, Json.str newFullText)]])])]

/-- An explicit content-block-delta line carrying hello. -/
def rawC9 : JObj :=
  [(keyType, Json.str typeCBDelta), (keyDelta, Json.obj [(keyText, Json.str ("hello".data))])]

/-- The inner delta object of rawC9. -/
def deltaObjC9 : JObj := [(keyText, Json.str ("hello".data))]

/-- A line matching none of the recognized shapes. -/
def lineC10 : JObj := [(keyType, Json.str ("mystery".data))]

/-- A turn-completed message. -/
def completedMsg : codexRPCMessage := ⟨.absent, methodTurnCompleted, [], [], none⟩

/-- An agent-message-delta message. -/
def agentDeltaMsg : codexRPCMessage :=
  ⟨.absent, "item/agentMessage/delta".data, [], [], none⟩

/-- A source holding two completion messages back to back. -/
def srcDouble : List codexRPCMessage := [completedMsg, completedMsg]

/-- A response message embedding an error object, with request id 1. -/
def errMsgC4 : codexRPCMessage := ⟨.strID ("1".data), [], [], [], some ⟨3, "boom".data⟩⟩

/-- A turn state with no buffered data. -/
def emptyTurnState : codexTurnState := ⟨[], [], [], false⟩

/-- A turn state holding two completed messages and explicit reasoning. -/
def stateC3 : codexTurnState := ⟨[], ["a".data, "b".data], "r".data, false⟩

/-- A callback that always succeeds. -/
def constFalseCB : GoStr → Bool := fun _ => false

/-! ## Helper lemmas about trimming and joining -/

theorem dropWhile_sfx {α : Type} (p : α → Bool) (l : List α) :
    ∃ pre, pre ++ l.dropWhile p = l := by
  induction l with
  | nil => exact ⟨[], rfl⟩
  | cons c t ih =>
    by_cases hp : p c
    · obtain ⟨pre, hpre⟩ := ih
      exact ⟨c :: pre, by simp [List.dropWhile_cons, hp, hpre]⟩
    · exact ⟨[], by simp [List.dropWhile_cons, hp]⟩

theorem dropWhile_head_false {α : Type} {p : α → Bool} {c : α} {w : List α}
    (h : (c :: w).dropWhile p = c :: w) : p c = false := by
  by_contra hc
  rw [List.dropWhile_cons_of_pos (by simpa using hc)] at h
  obtain ⟨pre, hpre⟩ := dropWhile_sfx p w
  have hlen : (w.dropWhile p).length ≤ w.length := by
    calc (w.dropWhile p).length ≤ pre.length + (w.dropWhile p).length := Nat.le_add_left _ _
    _ = w.length := by rw [← List.length_append, hpre]
  rw [h] at hlen
  simp at hlen

theorem dropWhile_idem {α : Type} (p : α → Bool) (l : List α) :
    (l.dropWhile p).dropWhile p = l.dropWhile p := by
  induction l with
  | nil => rfl
  | cons c t ih =>
    by_cases hp : p c
    · simpa [List.dropWhile_cons, hp] using ih
    · simp [List.dropWhile_cons, hp]

theorem dropWhile_append_self {α : Type} {p : α → Bool} {a : List α}
    (ha : a.dropWhile p = a) (hne : a ≠ []) (b : List α) :
    (a ++ b).dropWhile p = a ++ b := by
  obtain ⟨c, w, rfl⟩ := List.exists_cons_of_ne_nil hne
  have hc := dropWhile_head_false ha
  simp [List.dropWhile_cons, hc]

/-- No leading whitespace. -/
def frontTrim (s : GoStr) : Prop := s.dropWhile goIsSpace = s

/-- No trailing whitespace. -/
def backTrim (s : GoStr) : Prop := s.reverse.dropWhile goIsSpace = s.reverse

theorem trimSpace_eq_self_of {s : GoStr} (hf : frontTrim s) (hb : backTrim s) :
    trimSpace s = s := by
  unfold trimSpace
  rw [hf, hb, List.reverse_reverse]

theorem frontTrim_trimSpace (s : GoStr) : frontTrim (trimSpace s) := by
  unfold frontTrim trimSpace
  set u := s.dropWhile goIsSpace with hu
  obtain ⟨pre, hpre⟩ := dropWhile_sfx goIsSpace u.reverse
  set v := u.reverse.dropWhile goIsSpace with hv
  have hui : u.dropWhile goIsSpace = u := by rw [hu]; exact dropWhile_idem _ _
  rcases hvr : v.reverse with _ | ⟨c, w⟩
  · simp
  · have huv : u = c :: (w ++ pre.reverse) := by
      have : u = v.reverse ++ pre.reverse := by
        rw [← List.reverse_append, hpre, List.reverse_reverse]
      rw [this, hvr]; simp
    have hc : goIsSpace c = false := by
      apply dropWhile_head_false (p := goIsSpace) (c := c) (w := w ++ pre.reverse)
      rw [← huv]; exact hui
    simp [List.dropWhile_cons, hc]

theorem backTrim_trimSpace (s : GoStr) : backTrim (trimSpace s) := by
  unfold backTrim trimSpace
  rw [List.reverse_reverse]
  exact dropWhile_idem _ _

theorem trimSpace_idem (s : GoStr) : trimSpace (trimSpace s) = trimSpace s :=
  trimSpace_eq_self_of (frontTrim_trimSpace s) (backTrim_trimSpace s)

theorem frontTrim_of_trimmed {s : GoStr} (h : trimSpace s = s) : frontTrim s := by
  rw [← h]; exact frontTrim_trimSpace s

theorem backTrim_of_trimmed {s : GoStr} (h : trimSpace s = s) : backTrim s := by
  rw [← h]; exact backTrim_trimSpace s

theorem frontTrim_append {a : GoStr} (ha : frontTrim a) (hne : a ≠ []) (b : GoStr) :
    frontTrim (a ++ b) :=
  dropWhile_append_self ha hne b

theorem backTrim_append (a : GoStr) {b : GoStr} (hb : backTrim b) (hne : b ≠ []) :
    backTrim (a ++ b) := by
  unfold backTrim
  rw [List.reverse_append]
  exact dropWhile_append_self hb (by simpa using hne) a.reverse

theorem goJoin_props {parts : List GoStr}
    (h : ∀ x ∈ parts, trimSpace x = x ∧ x ≠ []) (hne : parts ≠ []) :
    frontTrim (goJoin blankSep parts) ∧ backTrim (goJoin blankSep parts) ∧
      goJoin blankSep parts ≠ [] := by
  induction parts with
  | nil => exact absurd rfl hne
  | cons x tail ih =>
    have hx := h x (by simp)
    rcases tail with _ | ⟨y, rest⟩
    · exact ⟨frontTrim_of_trimmed hx.1, backTrim_of_trimmed hx.1, hx.2⟩
    · have htail := ih (fun z hz => h z (by simp [hz])) (by simp)
      refine ⟨?_, ?_, ?_⟩
      · show frontTrim (x ++ blankSep ++ goJoin blankSep (y :: rest))
        rw [List.append_assoc]
        exact frontTrim_append (frontTrim_of_trimmed hx.1) hx.2 _
      · exact backTrim_append _ htail.2.1 htail.2.2
      · show x ++ blankSep ++ goJoin blankSep (y :: rest) ≠ []
        simp [hx.2]

theorem getLastD_mem_gen {α : Type} (l : List α) :
    ∀ d : α, l ≠ [] → l.getLastD d ∈ l := by
  induction l with
  | nil => intro d h; exact absurd rfl h
  | cons x tail ih =>
    intro d _
    rw [List.getLastD_cons]
    rcases htail : tail with _ | ⟨y, rest⟩
    · simp
    · rw [← htail]
      exact List.mem_cons_of_mem _ (ih x (by simp [htail]))

theorem getLastD_mem {l : List GoStr} (hne : l ≠ []) : l.getLastD [] ∈ l :=
  getLastD_mem_gen l [] hne

theorem mem_of_mem_dropLast {l : List GoStr} {x : GoStr} (h : x ∈ l.dropLast) : x ∈ l :=
  List.dropLast_sublist l |>.mem h

theorem filterMap_trim_id {l : List GoStr}
    (h : ∀ x ∈ l, trimSpace x = x ∧ x ≠ []) :
    l.filterMap (fun mg => if trimSpace mg = [] then none else some (trimSpace mg)) = l := by
  induction l with
  | nil => rfl
  | cons x tail ih =>
    have hx := h x (by simp)
    rw [List.filterMap_cons]
    rw [hx.1]
    simp only [if_neg hx.2]
    rw [ih (fun z hz => h z (by simp [hz]))]

theorem finalize_inv {s : codexTurnState}
    (h : ∀ mg ∈ s.agentMsgs, trimSpace mg = mg ∧ mg ≠ []) :
    ∀ mg ∈ s.finalize.agentMsgs, trimSpace mg = mg ∧ mg ≠ [] := by
  unfold codexTurnState.finalize codexTurnState.completeAgentMessage
  intro mg hmg
  by_cases hcond : s.inAgentMsg ∨ s.currentAgent ≠ []
  · rw [if_pos hcond] at hmg
    simp only at hmg
    by_cases hmsg : trimSpace s.currentAgent = []
    · rw [if_pos hmsg] at hmg
      exact h mg hmg
    · rw [if_neg hmsg] at hmg
      rcases List.mem_append.mp hmg with hold | hnew
      · exact h mg hold
      · have : mg = trimSpace s.currentAgent := by simpa using hnew
        exact ⟨by rw [this]; exact trimSpace_idem _, by rw [this]; exact hmsg⟩
  · rw [if_neg hcond] at hmg
    exact h mg hmg

theorem finalize_reasoning (s : codexTurnState) : s.finalize.reasoning = s.reasoning := by
  unfold codexTurnState.finalize codexTurnState.completeAgentMessage
  by_cases hcond : s.inAgentMsg ∨ s.currentAgent ≠ [] <;> simp [hcond]

/-! ## Claim theorems -/

/-- C1: at the spec's concrete input — prior observed text recorded at index
0 and a non-empty new full text that does not extend it — extractClaudeDelta
emits nothing (empty delta, ok = false) and leaves the index map untouched,
rather than emitting the entire new text as the claim states.  The final two
conjuncts certify that the input really is the claimed scenario: the new
text is non-empty and is not an extension of the recorded text. -/
theorem extractClaudeDelta_nonprefix_change_emits_nothing :
    (extractClaudeDelta (some lineC1) mapC1).1 = [] ∧
    (extractClaudeDelta (some lineC1) mapC1).2.1 = false ∧
    (∀ i, (extractClaudeDelta (some lineC1) mapC1).2.2 i = mapC1 i) ∧
    newFullText ≠ [] ∧ goHasPre newFullText (mapC1 0) = false := by
  refine ⟨by decide, by decide, ?_, by decide, by decide⟩
  intro i
  rfl

/-- C6: with the already-completed flag set, the completion wait returns
success at once, consuming no message from the source and invoking the
observer on nothing, whatever the source holds. -/
theorem waitForTurnCompleted_already_completed_immediate
    (msgs : List codexRPCMessage) :
    waitForTurnCompleted msgs true = ([], msgs) := by
  simp [waitForTurnCompleted]

/-- C7 counterexample: a source of two messages whose last is a completion
message (so N = 2) on which the wait forwards only the first message to the
observer, not all N — the loop stops at the first completion message. -/
theorem waitForTurnCompleted_double_completion_counterexample :
    (waitForTurnCompleted srcDouble false).1 ≠ srcDouble ∧
    (waitForTurnCompleted srcDouble false).1 = [completedMsg] ∧
    (srcDouble.getLastD completedMsg).method = methodTurnCompleted := by
  refine ⟨by decide, by decide, by decide⟩

/-- C7 (amended): when the source yields N messages whose last is a
completion message and no earlier message is one, the wait with the flag
unset forwards all N messages to the observer in arrival order and then
returns success, leaving nothing pending. -/
theorem waitForTurnCompleted_observer_sees_all (ms : List codexRPCMessage)
    (c : codexRPCMessage) (hc : c.method = methodTurnCompleted)
    (hms : ∀ m ∈ ms, m.method ≠ methodTurnCompleted) :
    waitForTurnCompleted (ms ++ [c]) false = (ms ++ [c], []) := by
  simp only [waitForTurnCompleted, if_neg (by simp : ¬(false = true))]
  induction ms with
  | nil => simp [waitLoop, hc]
  | cons m rest ih =>
    have hm := hms m (by simp)
    simp only [List.cons_append, waitLoop, if_neg hm, List.append_eq]
    rw [ih (fun z hz => hms z (by simp [hz]))]

theorem waitForTurnCompleted_observer_sees_all_witness :
    waitForTurnCompleted [agentDeltaMsg, completedMsg] false =
      ([agentDeltaMsg, completedMsg], []) :=
  waitForTurnCompleted_observer_sees_all [agentDeltaMsg] completedMsg (by decide)
    (by decide)

/-- C9: each explicit-delta shape — a content-block delta with delta.text, a
content-block start with content_block.text, a message delta with delta.text
— returns its non-empty text as the delta with ok = true, leaving the index
map unchanged. -/
theorem extractClaudeDelta_explicit_shapes :
    (∀ raw d t m, jGet raw keyType = some (.str typeCBDelta) →
        jGet raw keyDelta = some (.obj d) → jGet d keyText = some (.str t) →
        t ≠ [] → extractClaudeDelta (some raw) m = (t, true, m)) ∧
    (∀ raw cb t m, jGet raw keyType = some (.str typeCBStart) →
        jGet raw keyContentBlock = some (.obj cb) → jGet cb keyText = some (.str t) →
        t ≠ [] → extractClaudeDelta (some raw) m = (t, true, m)) ∧
    (∀ raw d t m, jGet raw keyType = some (.str typeMsgDelta) →
        jGet raw keyDelta = some (.obj d) → jGet d keyText = some (.str t) →
        t ≠ [] → extractClaudeDelta (some raw) m = (t, true, m)) := by
  refine ⟨?_, ?_, ?_⟩
  · intro raw d t m h1 h2 h3 h4
    simp [extractClaudeDelta, explicitScan, h1, h2, h3, stringVal, h4]
  · intro raw cb t m h1 h2 h3 h4
    have hne : typeCBStart ≠ typeCBDelta := by decide
    simp [extractClaudeDelta, explicitScan, h1, h2, h3, stringVal, h4, hne]
  · intro raw d t m h1 h2 h3 h4
    have hne1 : typeMsgDelta ≠ typeCBDelta := by decide
    have hne2 : typeMsgDelta ≠ typeCBStart := by decide
    simp [extractClaudeDelta, explicitScan, h1, h2, h3, stringVal, h4, hne1, hne2]

theorem extractClaudeDelta_explicit_shapes_witness :
    extractClaudeDelta (some rawC9) mapEmpty = ("hello".data, true, mapEmpty) :=
  extractClaudeDelta_explicit_shapes.1 rawC9 deltaObjC9 ("hello".data) mapEmpty
    rfl rfl rfl (by decide)

/-- C4: the call() receive loop — a message with no id is forwarded to the
observer and the loop continues; a message whose id matches the pending id
resolves the call, failing with the embedded error object's code and message
when present and otherwise yielding the raw result for decoding; a message
with a non-matching id but a non-empty method is forwarded to the observer
and skipped; a queue that closes before resolution fails the call with a
stream-ended error carrying the captured stderr text. -/
theorem codexRPCClient_call_loop_behavior :
    (∀ pid w serr (m : codexRPCMessage) rest, m.id = .absent →
        rpcCall pid w true serr (m :: rest) =
          ((rpcCall pid w true serr rest).1, m :: (rpcCall pid w true serr rest).2)) ∧
    (∀ pid w obs serr (m : codexRPCMessage) rest e, m.id = .strID pid →
        m.err = some e →
        rpcCall pid w obs serr (m :: rest) = (.error (.rpcErr e.code e.message), [])) ∧
    (∀ pid obs serr (m : codexRPCMessage) rest, m.id = .strID pid → m.err = none →
        rpcCall pid true obs serr (m :: rest) = (.ok m.result, [])) ∧
    (∀ pid w serr (m : codexRPCMessage) rest gid, m.id = .strID gid → gid ≠ pid →
        m.method ≠ [] →
        rpcCall pid w true serr (m :: rest) =
          ((rpcCall pid w true serr rest).1, m :: (rpcCall pid w true serr rest).2)) ∧
    (∀ pid w obs serr, rpcCall pid w obs serr [] =
        (.error (.streamEnded
          (if trimSpace serr = [] then unknownFailureText else trimSpace serr)), [])) := by
  refine ⟨?_, ?_, ?_, ?_, ?_⟩
  · intro pid w serr m rest h
    simp [rpcCall, h]
  · intro pid w obs serr m rest e h1 h2
    simp [rpcCall, h1, h2]
  · intro pid obs serr m rest h1 h2
    simp [rpcCall, h1, h2]
  · intro pid w serr m rest gid h1 h2 h3
    simp [rpcCall, h1, h2, h3]
  · intro pid w obs serr
    simp [rpcCall]

theorem codexRPCClient_call_loop_behavior_witness :
    rpcCall ("1".data) true true [] [errMsgC4] =
      (.error (.rpcErr 3 ("boom".data)), []) :=
  codexRPCClient_call_loop_behavior.2.1 ("1".data) true true [] errMsgC4 []
    ⟨3, "boom".data⟩ rfl rfl

/-- C5: a turn whose computed output text is empty fails with the
empty-assistant-output error: the tail of runTurnStructured (after the
completion wait, with no callback error latched) returns the error and
produces no result. -/
theorem runTurnStructured_empty_output_error (st : codexTurnState) (lam : GoStr)
    (er : Bool) (onEvent : Option (ResponseEvent → Bool))
    (hempty : (st.result lam).Output = []) :
    runTurnStructuredTail st lam false er onEvent = .error .emptyOutput := by
  simp [runTurnStructuredTail, hempty]

theorem runTurnStructured_empty_output_error_witness :
    runTurnStructuredTail emptyTurnState [] false false none = .error .emptyOutput :=
  runTurnStructured_empty_output_error emptyTurnState [] false none (by decide)

/-- C2: on both streaming surfaces, when the streaming run fails or
completes blank, no deltas were emitted during it, and the plain-text
fallback run succeeds with non-blank text (and the supplied callback accepts
the delta), the callback receives exactly one synthetic delta — the trimmed
plain-text result — and the returned response text equals that same
trimmed result. -/
theorem claudeStream_fallback_single_synthetic_delta
    (model st fb : GoStr) (emitted sErr : Bool) (f : GoStr → Bool)
    (hfail : sErr = true ∨ (sErr = false ∧ trimSpace st = []))
    (hem : emitted = false)
    (hcb : f (trimSpace fb) = false)
    (hnb : trimSpace fb ≠ []) :
    ClaudeAdapterChatStream model st emitted sErr (some fb) (some f) =
      (.ok ⟨model, trimSpace fb⟩, [trimSpace fb]) ∧
    ClaudeAdapterRespondStream model st emitted sErr (some fb) (some f) =
      (.ok ⟨model, trimSpace fb, []⟩, [trimSpace fb]) := by
  subst hem
  have hcore : claudeStreamCore st false sErr (some fb) (some f) =
      (.ok (trimSpace fb), [trimSpace fb]) := by
    rcases hfail with h | ⟨h1, h2⟩
    · subst h
      simp [claudeStreamCore, hnb, hcb]
    · subst h1
      simp [claudeStreamCore, h2, hnb, hcb]
  exact ⟨by simp [ClaudeAdapterChatStream, hcore],
    by simp [ClaudeAdapterRespondStream, hcore]⟩

theorem claudeStream_fallback_single_synthetic_delta_witness :
    ClaudeAdapterChatStream [] [] false true (some ("ok".data)) (some constFalseCB) =
      (.ok ⟨[], "ok".data⟩, ["ok".data]) ∧
    ClaudeAdapterRespondStream [] [] false true (some ("ok".data)) (some constFalseCB) =
      (.ok ⟨[], "ok".data, []⟩, ["ok".data]) :=
  claudeStream_fallback_single_synthetic_delta [] [] ("ok".data) false true
    constFalseCB (Or.inl rfl) rfl rfl (by decide)

/-- Every codexTurnState holds at most one open agent message: the open
buffer is a single cell guarded by a single flag. -/
theorem openCount_le_one (s : codexTurnState) : openCount s ≤ 1 := by
  unfold openCount
  split <;> simp

theorem applyTurnOp_append_only (s : codexTurnState) (op : turnOp) :
    (∃ suf, (applyTurnOp s op).agentMsgs = s.agentMsgs ++ suf) ∧
    (∃ suf, (applyTurnOp s op).reasoning = s.reasoning ++ suf) := by
  cases op with
  | opAppendReasoning d =>
    unfold applyTurnOp codexTurnState.appendReasoning
    by_cases h : trimSpace d = []
    · exact ⟨⟨[], by simp [h]⟩, ⟨[], by simp [h]⟩⟩
    · exact ⟨⟨[], by simp [h]⟩, ⟨d, by simp [h]⟩⟩
  | opAppendAgentDelta d =>
    exact ⟨⟨[], by simp [applyTurnOp, codexTurnState.appendAgentDelta]⟩,
      ⟨[], by simp [applyTurnOp, codexTurnState.appendAgentDelta]⟩⟩
  | opCompleteAgentMessage =>
    unfold applyTurnOp codexTurnState.completeAgentMessage
    by_cases h : trimSpace s.currentAgent = []
    · exact ⟨⟨[], by simp [h]⟩, ⟨[], by simp [h]⟩⟩
    · exact ⟨⟨[trimSpace s.currentAgent], by simp [h]⟩, ⟨[], by simp [h]⟩⟩
  | opFinalize =>
    unfold applyTurnOp codexTurnState.finalize codexTurnState.completeAgentMessage
    by_cases hcond : s.inAgentMsg ∨ s.currentAgent ≠ []
    · by_cases h : trimSpace s.currentAgent = []
      · exact ⟨⟨[], by simp [hcond, h]⟩, ⟨[], by simp [hcond, h]⟩⟩
      · exact ⟨⟨[trimSpace s.currentAgent], by simp [hcond, h]⟩,
          ⟨[], by simp [hcond, h]⟩⟩
    · exact ⟨⟨[], by simp [hcond]⟩, ⟨[], by simp [hcond]⟩⟩

/-- C8: under any sequence of the notification-handling operations, the
completed-message list and the reasoning buffer only grow by appending
(every prior element and prefix is preserved), and the state never holds
more than one open agent message. -/
theorem codexTurnState_append_only_invariant (ops : List turnOp) (s : codexTurnState) :
    (∃ suf, (applyTurnOps s ops).agentMsgs = s.agentMsgs ++ suf) ∧
    (∃ suf, (applyTurnOps s ops).reasoning = s.reasoning ++ suf) ∧
    openCount (applyTurnOps s ops) ≤ 1 := by
  induction ops generalizing s with
  | nil =>
    exact ⟨⟨[], by simp [applyTurnOps]⟩, ⟨[], by simp [applyTurnOps]⟩,
      openCount_le_one s⟩
  | cons op rest ih =>
    obtain ⟨⟨s1, h1⟩, ⟨s2, h2⟩⟩ := applyTurnOp_append_only s op
    obtain ⟨⟨t1, g1⟩, ⟨t2, g2⟩, hopen⟩ := ih (applyTurnOp s op)
    have hstep : applyTurnOps s (op :: rest) = applyTurnOps (applyTurnOp s op) rest := rfl
    refine ⟨⟨s1 ++ t1, ?_⟩, ⟨s2 ++ t2, ?_⟩, ?_⟩
    · rw [hstep, g1, h1, List.append_assoc]
    · rw [hstep, g2, h2, List.append_assoc]
    · rw [hstep]; exact hopen

theorem goHasPre_drop_nil {full prev : GoStr} (h : goHasPre full prev = true)
    (hd : full.drop prev.length = []) : full = prev := by
  induction prev generalizing full with
  | nil => simpa using hd
  | cons d t ih =>
    cases full with
    | nil => simp [goHasPre] at h
    | cons c s =>
      simp only [goHasPre] at h
      by_cases hcd : c = d
      · rw [if_pos hcd] at h
        have hs : s = t := ih h (by simpa using hd)
        rw [hcd, hs]
      · rw [if_neg hcd] at h
        exact absurd h (by simp)

theorem mapUpdate_self (m : Nat → GoStr) (idx : Nat) : mapUpdate m idx (m idx) = m := by
  funext i
  unfold mapUpdate
  by_cases h : i = idx
  · rw [if_pos h, h]
  · rw [if_neg h]

theorem fallbackLoop_false (content : List Json) :
    ∀ (m : Nat → GoStr) (idx : Nat),
      (fallbackLoop m content idx).2.1 = false →
      (fallbackLoop m content idx).1 = [] ∧ (fallbackLoop m content idx).2.2 = m := by
  induction content with
  | nil => intro m idx _; exact ⟨rfl, rfl⟩
  | cons it rest ih =>
    intro m idx hok
    cases it with
    | obj item =>
      by_cases hfull : stringVal (jGet item keyText) = []
      · simp only [fallbackLoop, if_pos hfull] at hok ⊢
        exact ih m (idx + 1) hok
      · by_cases hpre : goHasPre (stringVal (jGet item keyText)) (m idx) = true
        · by_cases hdel : goTrimPre (stringVal (jGet item keyText)) (m idx) = []
          · have heq : stringVal (jGet item keyText) = m idx := by
              apply goHasPre_drop_nil hpre
              unfold goTrimPre at hdel
              rw [if_pos hpre] at hdel
              exact hdel
            have hupd : mapUpdate m idx (stringVal (jGet item keyText)) = m := by
              rw [heq]; exact mapUpdate_self m idx
            simp only [fallbackLoop, if_neg hfull, if_pos hpre, if_pos hdel, hupd]
              at hok ⊢
            exact ih m (idx + 1) hok
          · simp only [fallbackLoop, if_neg hfull, if_pos hpre, if_neg hdel] at hok
            exact absurd hok (by simp)
        · by_cases hprev : m idx = []
          · have : goHasPre (stringVal (jGet item keyText)) (m idx) = true := by
              rw [hprev]
              cases stringVal (jGet item keyText) <;> rfl
            exact absurd this hpre
          · have hpre' : goHasPre (stringVal (jGet item keyText)) (m idx) = false := by
              simpa using hpre
            simp only [fallbackLoop, if_neg hfull, hpre', Bool.false_eq_true,
              if_neg (by simp : ¬False), if_neg hprev] at hok ⊢
            exact ih m (idx + 1) hok
    | null =>
      simp only [fallbackLoop] at hok ⊢
      exact ih m (idx + 1) hok
    | bool b =>
      simp only [fallbackLoop] at hok ⊢
      exact ih m (idx + 1) hok
    | num t =>
      simp only [fallbackLoop] at hok ⊢
      exact ih m (idx + 1) hok
    | str t =>
      simp only [fallbackLoop] at hok ⊢
      exact ih m (idx + 1) hok
    | arr es =>
      simp only [fallbackLoop] at hok ⊢
      exact ih m (idx + 1) hok

theorem fallbackScan_false (raw : JObj) (m : Nat → GoStr) :
    (fallbackScan raw m).2.1 = false →
    (fallbackScan raw m).1 = [] ∧ (fallbackScan raw m).2.2 = m := by
  unfold fallbackScan
  split
  · split
    · exact fallbackLoop_false _ m 0
    · intro _; exact ⟨rfl, rfl⟩
  · intro _; exact ⟨rfl, rfl⟩

/-- C10: extractClaudeDelta is total over its input space; a line that is
not a JSON object yields the empty delta with ok = false and the untouched
map, and in general every invocation that reports ok = false returns the
empty delta and leaves the index map unchanged. -/
theorem extractClaudeDelta_total_nomatch_unchanged :
    (∀ m, extractClaudeDelta none m = ([], false, m)) ∧
    (∀ line m, (extractClaudeDelta line m).2.1 = false →
      (extractClaudeDelta line m).1 = [] ∧ (extractClaudeDelta line m).2.2 = m) := by
  refine ⟨fun m => rfl, ?_⟩
  intro line m
  cases line with
  | none => intro _; exact ⟨rfl, rfl⟩
  | some raw =>
    simp only [extractClaudeDelta]
    cases explicitScan raw with
    | some t => intro hok; simp at hok
    | none => exact fallbackScan_false raw m

theorem extractClaudeDelta_total_nomatch_unchanged_witness :
    (extractClaudeDelta (some lineC10) mapEmpty).1 = [] ∧
    (extractClaudeDelta (some lineC10) mapEmpty).2.2 = mapEmpty :=
  extractClaudeDelta_total_nomatch_unchanged.2 (some lineC10) mapEmpty (by decide)

/-- C3: for any turn state whose completed messages are (as every reachable
state's are) trimmed and non-blank, and any authoritative last-agent-message:
after the defensive finalize that result() performs, the output text is the
trimmed authoritative message when non-empty, else the most recent completed
message (empty when there is none); the reasoning text is the trimmed
explicit reasoning buffer followed — separated by a blank line when both
parts are non-empty — by every completed message except the last, joined by
blank lines. -/
theorem codexTurnState_result_output_reasoning (s : codexTurnState) (lam : GoStr)
    (hinv : ∀ mg ∈ s.agentMsgs, trimSpace mg = mg ∧ mg ≠ []) :
    (s.result lam).Output =
      (if trimSpace lam ≠ [] then trimSpace lam
       else s.finalize.agentMsgs.getLastD []) ∧
    (s.result lam).Reasoning =
      (if s.finalize.agentMsgs.dropLast = [] then trimSpace s.reasoning
       else if trimSpace s.reasoning = [] then
         goJoin blankSep s.finalize.agentMsgs.dropLast
       else trimSpace s.reasoning ++ blankSep ++
         goJoin blankSep s.finalize.agentMsgs.dropLast) := by
  have hinv' := finalize_inv hinv
  have hparts : s.finalize.agentMsgs.dropLast.filterMap
      (fun mg => if trimSpace mg = [] then none else some (trimSpace mg)) =
      s.finalize.agentMsgs.dropLast :=
    filterMap_trim_id (fun x hx => hinv' x (mem_of_mem_dropLast hx))
  constructor
  · simp only [codexTurnState.result]
    by_cases hlam : trimSpace lam = []
    · by_cases hmsgs : s.finalize.agentMsgs = []
      · simp [hlam, hmsgs]
      · have hm1 := (hinv' _ (getLastD_mem hmsgs)).1
        simp only [List.getLastD_eq_getLast?] at hm1
        simp [hlam, hmsgs, hm1]
    · simp [hlam]
  · simp only [codexTurnState.result, finalize_reasoning, hparts]
    by_cases hdl : s.finalize.agentMsgs.dropLast = []
    · simp [hdl, trimSpace_idem]
    · have hjp := goJoin_props (fun x hx => hinv' x (mem_of_mem_dropLast hx)) hdl
      by_cases hbuf : trimSpace s.reasoning = []
      · have hJ := trimSpace_eq_self_of hjp.1 hjp.2.1
        simp [hdl, hbuf, hJ]
      · have hfront : frontTrim ((trimSpace s.reasoning ++ blankSep) ++
            goJoin blankSep s.finalize.agentMsgs.dropLast) := by
          rw [List.append_assoc]
          exact frontTrim_append (frontTrim_trimSpace s.reasoning) hbuf _
        have hback : backTrim ((trimSpace s.reasoning ++ blankSep) ++
            goJoin blankSep s.finalize.agentMsgs.dropLast) :=
          backTrim_append _ hjp.2.1 hjp.2.2
        have htrim := trimSpace_eq_self_of hfront hback
        rw [List.append_assoc] at htrim
        simp [hdl, hbuf, htrim]

theorem codexTurnState_result_output_reasoning_witness :
    (stateC3.result []).Output =
      (if trimSpace ([] : GoStr) ≠ [] then trimSpace ([] : GoStr)
       else stateC3.finalize.agentMsgs.getLastD []) ∧
    (stateC3.result []).Reasoning =
      (if stateC3.finalize.agentMsgs.dropLast = [] then trimSpace stateC3.reasoning
       else if trimSpace stateC3.reasoning = [] then
         goJoin blankSep stateC3.finalize.agentMsgs.dropLast
       else trimSpace stateC3.reasoning ++ blankSep ++
         goJoin blankSep stateC3.finalize.agentMsgs.dropLast) :=
  codexTurnState_result_output_reasoning stateC3 [] (by decide)

end Proxy
